import Mathlib

/-!
# Voice Note Store and Audio Transcription Pipeline — verification

Shallow embedding of the core of the HTTPHacks sticky-notes application:
the directory reconciliation (`scanVoiceNotes`, `createNewTextNote` in
`src/main.cpp`) and the audio transcription pipeline
(`sendAudioFileToWhisper`, `stopRecordAudioFromMicrophone` in the voice
recording translation unit).

Machine integers are modelled as `Int`/`Nat`; the C++ `float`/`double`
arithmetic of the downmix and resampler is modelled over `ℚ` (the
algorithms are rational-valued; 2⁻¹⁵-scaled division by powers of two is
exact for the test vectors considered).  The filesystem is modelled as an
association list from paths to file data; external collaborators (SFML
audio capture, the whisper engine) are modelled by explicit parameters
recording whether each call succeeds.
-/

namespace HTTPHacks

/-! ## Resampler: downmix and linear-interpolation resample
(`sendAudioFileToWhisper`, lines 44–86) -/

/-- Clamp of the mono float sample, from
`if (f > 1.0f) f = 1.0f; if (f < -1.0f) f = -1.0f;`. -/
def clampUnit (x : ℚ) : ℚ :=
  let x1 := if x > 1 then 1 else x
  if x1 < -1 then -1 else x1

/-- The downmix loop of `sendAudioFileToWhisper` (lines 45–58):
`frames = sampleCount / channelCount` (C++ integer division, which the
code runs with no guard on `channelCount`); for each frame, sum the
`channelCount` interleaved 16-bit samples, divide by
`channelCount * 32768.0f`, clamp to `[-1, 1]`. -/
def downmixToMono (samples : List ℤ) (channelCount : ℕ) : List ℚ :=
  let frames := samples.length / channelCount
  (List.range frames).map (fun i =>
    let acc : ℤ := (List.range channelCount).foldl
      (fun a ch => a + samples.getD (i * channelCount + ch) 0) 0
    clampUnit ((acc : ℚ) / ((channelCount : ℚ) * 32768)))

/-- Error used to model `return 2` (`"No audio frames to resample"`). -/
inductive ResampleError where
  | emptyInput
deriving DecidableEq, Repr

/-- The resampling block of `sendAudioFileToWhisper` (lines 62–86):
if the rates differ, fail on an empty input, else linear interpolation
with `out_frames = ⌊in_frames * out_rate / in_rate + 1/2⌋`; if the rates
agree the input is passed through unchanged (the `swap` branch), with no
empty-input check. -/
def resample (mono : List ℚ) (fromRate toRate : ℕ) :
    Except ResampleError (List ℚ) :=
  if fromRate ≠ toRate then
    if mono.length = 0 then .error .emptyInput
    else
      let inFrames := mono.length
      let outFrames : ℕ :=
        (⌊(inFrames : ℚ) * toRate / fromRate + 1/2⌋).toNat
      .ok ((List.range outFrames).map (fun i =>
        let src : ℚ := i * fromRate / toRate
        let idx : ℕ := (⌊src⌋).toNat
        let frac : ℚ := src - idx
        let v0 := mono.getD idx 0
        let v1 := if idx + 1 < inFrames then mono.getD (idx + 1) 0 else v0
        v0 * (1 - frac) + v1 * frac))
  else .ok mono

/-! ## Filesystem and pipeline model -/

/-- The raw capture buffer returned by `recorder.getBuffer()`:
interleaved 16-bit samples, sample rate, channel count. -/
structure RecBuffer where
  samples : List ℤ
  sampleRate : ℕ
  channelCount : ℕ
deriving DecidableEq, Repr

/-- A file in the notes directory: a PCM `.wav` holding a capture buffer,
or a text file holding a string. -/
inductive FileData where
  | wav (buf : RecBuffer)
  | txt (s : String)
deriving DecidableEq, Repr

/-- Size in bytes of a stored file.  Modelled from the spec: a persisted
`.wav` is a canonical PCM WAV (44-byte RIFF/fmt/data header followed by
the 16-bit sample data); text files are raw text. -/
def FileData.byteSize : FileData → ℕ
  | .wav b => 44 + 2 * b.samples.length
  | .txt s => s.length

/-- The notes directory as an association list from full path to file
data; later writes shadow earlier ones via `Fs.insert`. -/
def Fs := List (String × FileData)

instance : DecidableEq Fs := by
  unfold Fs
  infer_instance

/-- Write (create or truncate) the file at `path`. -/
def Fs.insert (fs : Fs) (path : String) (d : FileData) : Fs :=
  match fs with
  | [] => [(path, d)]
  | (p, d') :: t =>
      if p = path then (p, d) :: t else (p, d') :: Fs.insert t path d

/-- Read the file at `path`, if present. -/
def Fs.lookup (fs : Fs) (path : String) : Option FileData :=
  match fs with
  | [] => none
  | (p, d) :: t => if p = path then some d else Fs.lookup t path

/-- Externally observable events of one pipeline run. -/
inductive Ev where
  | savedWav
  | savedTxt
  | engineInvoked
  | wroteTranscript
deriving DecidableEq, Repr

/-- The external collaborators of `sendAudioFileToWhisper`: whether
`whisper_init_from_file_with_params` succeeds, whether `whisper_full`
succeeds, and the text segments the engine produces on success. -/
structure Env where
  modelLoads : Bool
  whisperOk : Bool
  segments : List String
deriving DecidableEq, Repr

/-- Transcript written on success: each segment followed by `'\n'`
(lines 114–118). -/
def transcriptText (segments : List String) : String :=
  String.join (segments.map (fun s => s ++ "\n"))

/-- Model of `sendAudioFileToWhisper(audioPath, textPath)` (lines 31–123):
function from the environment and filesystem to
(return code, new filesystem, event trace):
* load the `.wav` at `audioPath`; on failure return 1;
* downmix to mono (lines 45–58);
* resample when the rate differs from `WHISPER_SAMPLE_RATE = 16000`,
  returning 2 on zero frames (lines 62–86);
* initialize the model (return 3 on failure), run `whisper_full`
  (return 5 on failure);
* on success write the newline-joined segments to `textPath`, return 0. -/
def sendAudioFileToWhisper (env : Env) (fs : Fs)
    (audioPath textPath : String) :
    ℤ × Fs × List Ev :=
  match fs.lookup audioPath with
  | some (.wav buf) =>
      let pcmf32 := downmixToMono buf.samples buf.channelCount
      match resample pcmf32 buf.sampleRate 16000 with
      | .error _ => (2, fs, [])
      | .ok _resampled =>
          if env.modelLoads then
            if env.whisperOk then
              (0, fs.insert textPath (.txt (transcriptText env.segments)),
                [.engineInvoked, .wroteTranscript])
            else (5, fs, [.engineInvoked])
          else (3, fs, [.engineInvoked])
  | _ => (1, fs, [])

/-- Path normalization of `stopRecordAudioFromMicrophone` (lines 164–165):
append a `/` to the configured directory unless it already ends in a
(back)slash or is empty. -/
def normalizeDirSlash (dir : String) : String :=
  if dir ≠ "" ∧ dir.back ≠ '/' ∧ dir.back ≠ '\\' then dir ++ "/" else dir

/-- Model of `stopRecordAudioFromMicrophone()` (lines 155–184): stop the recorder,
save the capture buffer as `dir/note_<timestamp>.wav` (abort with 1 if
the save fails), create the empty `.txt`, then call
`sendAudioFileToWhisper` — whose return value the code discards — and
return 0.  `saveOk` models whether `buffer.saveToFile` succeeds. -/
def stopRecordAudioFromMicrophone (env : Env) (fs : Fs) (buffer : RecBuffer)
    (voiceNotesPath timestamp : String) (saveOk : Bool) :
    ℤ × Fs × List Ev :=
  let baseName := "note_" ++ timestamp
  let dir := normalizeDirSlash voiceNotesPath
  let audioPath := dir ++ baseName ++ ".wav"
  let textPath := dir ++ baseName ++ ".txt"
  if saveOk then
    let fs1 := fs.insert audioPath (.wav buffer)
    let fs2 := fs1.insert textPath (.txt "")
    let r := sendAudioFileToWhisper env fs2 audioPath textPath
    (0, r.2.1, [.savedWav, .savedTxt] ++ r.2.2)
  else (1, fs, [])

/-! ## NoteStore: directory reconciliation (`main.cpp`, lines 137–209)
and note creation (lines 232–250) -/

/-- The `Note` struct of `main.cpp`. -/
structure Note where
  base : String
  txtPath : String
  wavPath : String
  text : String
  created : String
deriving DecidableEq, Repr

/-- One entry of the directory listing handed to the scan: the stem and
extension reported by `std::filesystem::path`, whether the entry is a
regular file, the file's content (what `slurp` reads), and the
`%H:%M`-formatted last write time of the file. -/
structure FileEntry where
  stem : String
  ext : String
  isRegular : Bool
  content : String
  mtimeLabel : String
deriving DecidableEq, Repr

/-- Full path of a listing entry under directory `dir`. -/
def FileEntry.path (dir : String) (e : FileEntry) : String :=
  dir ++ e.stem ++ e.ext

/-- The partially merged `Note` of the scan's map: the two path fields,
default-constructed empty as by `map[stem]`. -/
structure PathPair where
  txtPath : String
  wavPath : String
deriving DecidableEq, Repr

/-- The default-constructed map entry. -/
def PathPair.empty : PathPair := ⟨"", ""⟩

/-- Insert-or-update into the scan's `base → Note` map, keeping
first-insertion key order; keys are unique. -/
def upsert (m : List (String × PathPair)) (k : String)
    (f : PathPair → PathPair) : List (String × PathPair) :=
  match m with
  | [] => [(k, f PathPair.empty)]
  | (k', v) :: t =>
      if k' = k then (k', f v) :: t else (k', v) :: upsert t k f

/-- One step of the scan loop (lines 147–162): skip non-regular files;
`ext == ".txt" || ext == ".TXT"` sets `txtPath`,
`ext == ".wav" || ext == ".WAV"` sets `wavPath`; any other extension is
ignored. -/
def scanStep (dir : String) (m : List (String × PathPair))
    (e : FileEntry) : List (String × PathPair) :=
  if e.isRegular then
    if e.ext = ".txt" ∨ e.ext = ".TXT" then
      upsert m e.stem (fun pp => { pp with txtPath := e.path dir })
    else if e.ext = ".wav" ∨ e.ext = ".WAV" then
      upsert m e.stem (fun pp => { pp with wavPath := e.path dir })
    else m
  else m

/-- The map built by iterating the directory listing. -/
def buildMap (dir : String) (listing : List FileEntry) :
    List (String × PathPair) :=
  listing.foldl (scanStep dir) []

/-- Model of `slurp(path)` over the listing: content of the entry with that full
path, or `""` when the file cannot be read. -/
def slurpIn (dir : String) (listing : List FileEntry) (p : String) :
    String :=
  match listing.find? (fun e => e.path dir = p) with
  | some e => e.content
  | none => ""

/-- Model of `last_write_time` over the listing, `%H:%M`-formatted; `none` models
the `filesystem_error` thrown for a path that does not exist. -/
def mtimeIn (dir : String) (listing : List FileEntry) (p : String) :
    Option String :=
  (listing.find? (fun e => e.path dir = p)).map (·.mtimeLabel)

/-- Materialization of one map entry (lines 174–201): load `text` from
`txtPath` when set; `created` defaults to `nowShort()` and is replaced by
the last write time of `txtPath` (else `wavPath`) when that lookup does
not throw. -/
def materializeNote (dir now : String) (listing : List FileEntry)
    (kv : String × PathPair) : Note :=
  let pp := kv.2
  let text := if pp.txtPath ≠ "" then slurpIn dir listing pp.txtPath else ""
  let chosen :=
    if pp.txtPath ≠ "" then pp.txtPath
    else if pp.wavPath ≠ "" then pp.wavPath else ""
  let created :=
    match mtimeIn dir listing chosen with
    | some l => l
    | none => now
  { base := kv.1, txtPath := pp.txtPath, wavPath := pp.wavPath,
    text := text, created := created }

/-- Sort comparator of line 204: `a.base > b.base` on `std::string` is
lexicographic; it is modelled through the strings' character lists (the
same lexicographic order, over a kernel-computable relation). -/
def noteGE (a b : Note) : Prop := b.base.data ≤ a.base.data

instance : DecidableRel noteGE := fun a b =>
  inferInstanceAs (Decidable (b.base.data ≤ a.base.data))

instance : IsTotal Note noteGE := ⟨fun a b => le_total b.base.data a.base.data⟩

instance : IsTrans Note noteGE := ⟨fun _ _ _ h1 h2 => le_trans h2 h1⟩

/-- The scan with the iteration order of the `unordered_map` made
explicit: materialize the entries in the order `enum`, then sort newest
first.  The code's run is any `enum` that is a permutation of
`buildMap dir listing`. -/
def scanVoiceNotesEnum (dir now : String) (listing : List FileEntry)
    (enum : List (String × PathPair)) : List Note :=
  List.insertionSort noteGE (enum.map (materializeNote dir now listing))

/-- Model of `scanVoiceNotes()` (lines 137–209) on a directory snapshot, with the
map enumerated in insertion order. -/
def scanVoiceNotes (dir now : String) (listing : List FileEntry) :
    List Note :=
  scanVoiceNotesEnum dir now listing (buildMap dir listing)

/-- Model of `normalizedVoiceDir()` (lines 117–122): fall back to
`"voice_notes/"` on an empty setting, else ensure a trailing slash. -/
def normalizedVoiceDir (settingsPath : String) : String :=
  let dir := if settingsPath = "" then "voice_notes/" else settingsPath
  if dir.back ≠ '/' ∧ dir.back ≠ '\\' then dir ++ "/" else dir

/-- Model of `createNewTextNote()` (lines 232–250): write the placeholder
`"New note\n"` to `dir/base.txt` and return a `Note` whose `txtPath`,
`wavPath`, `text` are all filled in — `wavPath` is set to the prospective
`.wav` path even though no audio file is created. -/
def createNewTextNote (settingsPath base nowLabel : String) (fs : Fs) :
    Note × Fs :=
  let dir := normalizedVoiceDir settingsPath
  let txt := dir ++ base ++ ".txt"
  let wav := dir ++ base ++ ".wav"
  let initial := "New note\n"
  let fs' := fs.insert txt (.txt initial)
  ({ base := base, txtPath := txt, wavPath := wav,
     text := initial, created := nowLabel }, fs')

/-! ## Filesystem and string helper lemmas -/

theorem Fs.lookup_insert_self (fs : Fs) (p : String) (d : FileData) :
    (fs.insert p d).lookup p = some d := by
  induction fs with
  | nil => simp [Fs.insert, Fs.lookup]
  | cons hd t ih =>
      obtain ⟨q, d'⟩ := hd
      by_cases h : q = p
      · simp [Fs.insert, Fs.lookup, h]
      · simp [Fs.insert, Fs.lookup, h, ih]

theorem Fs.lookup_insert_ne (fs : Fs) (p q : String) (d : FileData)
    (h : p ≠ q) : (fs.insert p d).lookup q = fs.lookup q := by
  induction fs with
  | nil => simp [Fs.insert, Fs.lookup, h]
  | cons hd t ih =>
      obtain ⟨r, d'⟩ := hd
      by_cases hr : r = p
      · subst hr
        simp [Fs.insert, Fs.lookup, h]
      · simp [Fs.insert, Fs.lookup, hr, ih]

theorem String.append_right_injective (a b c : String) :
    a ++ b = a ++ c → b = c := by
  intro h
  have hd : (a ++ b).data = (a ++ c).data := by rw [h]
  simp only [String.data_append] at hd
  have h2 := List.append_cancel_left hd
  cases b; cases c
  exact congrArg String.mk h2

/-- The `.wav` and `.txt` paths of one pipeline run differ. -/
theorem wav_txt_path_ne (pre : String) :
    pre ++ ".wav" ≠ pre ++ ".txt" := by
  intro h
  have := String.append_right_injective pre ".wav" ".txt" h
  simp at this

/-! ## Claim theorems -/

/-- Claim C1: In `stopRecordAudioFromMicrophone`, the raw capture is always
persisted as a `.wav` before the engine is invoked: when the save fails
the run returns the failure code 1 with no event (engine never invoked,
filesystem untouched); and on every run that invokes the engine the save
succeeded, the first event of the run is the `.wav` write, and the final
filesystem holds the capture buffer at the `.wav` path. -/
theorem C1_wav_persisted_before_engine (env : Env) (fs : Fs)
    (buffer : RecBuffer) (voiceNotesPath timestamp : String) (saveOk : Bool) :
    (saveOk = false →
      (stopRecordAudioFromMicrophone env fs buffer voiceNotesPath timestamp
        saveOk).1 = 1 ∧
      (stopRecordAudioFromMicrophone env fs buffer voiceNotesPath timestamp
        saveOk).2.2 = [] ∧
      (stopRecordAudioFromMicrophone env fs buffer voiceNotesPath timestamp
        saveOk).2.1 = fs) ∧
    (Ev.engineInvoked ∈ (stopRecordAudioFromMicrophone env fs buffer
        voiceNotesPath timestamp saveOk).2.2 →
      saveOk = true ∧
      (stopRecordAudioFromMicrophone env fs buffer voiceNotesPath timestamp
        saveOk).2.2.head? = some .savedWav ∧
      (stopRecordAudioFromMicrophone env fs buffer voiceNotesPath timestamp
        saveOk).2.1.lookup
          (normalizeDirSlash voiceNotesPath ++ ("note_" ++ timestamp) ++ ".wav")
        = some (.wav buffer)) := by
  cases saveOk with
  | false =>
      refine ⟨fun _ => ?_, fun hmem => ?_⟩
      · simp [stopRecordAudioFromMicrophone]
      · simp [stopRecordAudioFromMicrophone] at hmem
  | true =>
      refine ⟨fun h => by simp at h, fun hmem => ?_⟩
      refine ⟨rfl, ?_, ?_⟩
      · simp [stopRecordAudioFromMicrophone]
      · have hne := wav_txt_path_ne
          (normalizeDirSlash voiceNotesPath ++ ("note_" ++ timestamp))
        simp only [stopRecordAudioFromMicrophone, if_pos rfl]
        simp only [stopRecordAudioFromMicrophone, if_pos rfl] at hmem
        set dir := normalizeDirSlash voiceNotesPath with hdir
        set audioPath := dir ++ ("note_" ++ timestamp) ++ ".wav" with hap
        set textPath := dir ++ ("note_" ++ timestamp) ++ ".txt" with htp
        set fs1 := fs.insert audioPath (.wav buffer) with hfs1
        set fs2 := fs1.insert textPath (.txt "") with hfs2
        have hlook : fs2.lookup audioPath = some (.wav buffer) := by
          rw [hfs2, Fs.lookup_insert_ne _ _ _ _ (Ne.symm hne), hfs1,
            Fs.lookup_insert_self]
        show (sendAudioFileToWhisper env fs2 audioPath textPath).2.1.lookup
          audioPath = some (.wav buffer)
        cases hres : resample (downmixToMono buffer.samples buffer.channelCount)
            buffer.sampleRate 16000 with
        | error e => simp [sendAudioFileToWhisper, hlook, hres]
        | ok res =>
            cases hml : env.modelLoads with
            | false => simp [sendAudioFileToWhisper, hlook, hres, hml]
            | true =>
                cases hwk : env.whisperOk with
                | false => simp [sendAudioFileToWhisper, hlook, hres, hml, hwk]
                | true =>
                    simp only [sendAudioFileToWhisper, hlook, hres, hml, hwk,
                      if_true]
                    rw [Fs.lookup_insert_ne _ _ _ _ (Ne.symm hne)]
                    exact hlook

/-- Witness for C1 at a concrete run: a failing save aborts with 1 and an
engine-invoking run has the `.wav` as its first event and in its final
filesystem. -/
theorem C1_witness :
    ((stopRecordAudioFromMicrophone ⟨true, true, ["hi"]⟩ []
        ⟨[0, 0], 16000, 1⟩ "d" "ts" false).1 = 1) ∧
    ((stopRecordAudioFromMicrophone ⟨true, true, ["hi"]⟩ []
        ⟨[0, 0], 16000, 1⟩ "d" "ts" true).2.2.head? = some .savedWav) := by
  refine ⟨?_, ?_⟩
  · exact ((C1_wav_persisted_before_engine ⟨true, true, ["hi"]⟩ []
      ⟨[0, 0], 16000, 1⟩ "d" "ts" false).1 rfl).1
  · exact ((C1_wav_persisted_before_engine ⟨true, true, ["hi"]⟩ []
      ⟨[0, 0], 16000, 1⟩ "d" "ts" true).2 (by decide)).2.1

/-- The `.wav` path a run with the given settings path and timestamp
writes to. -/
def audioPathOf (voiceNotesPath timestamp : String) : String :=
  normalizeDirSlash voiceNotesPath ++ ("note_" ++ timestamp) ++ ".wav"

/-- The `.txt` path of the same run. -/
def textPathOf (voiceNotesPath timestamp : String) : String :=
  normalizeDirSlash voiceNotesPath ++ ("note_" ++ timestamp) ++ ".txt"

/-- The filesystem as the engine sees it: capture saved, empty `.txt`
created. -/
def fsAfterSaves (fs : Fs) (buffer : RecBuffer)
    (voiceNotesPath timestamp : String) : Fs :=
  (fs.insert (audioPathOf voiceNotesPath timestamp) (.wav buffer)).insert
    (textPathOf voiceNotesPath timestamp) (.txt "")

/-- Claim C2 counterexample: A run whose engine fails (model load fails,
`whisper_init` returns null) still reports 0 — the same return value as a
fully successful run — because `stopRecordAudioFromMicrophone` discards
`sendAudioFileToWhisper`'s error code; the claim that the pipeline
reports the failure to its caller is false. -/
theorem C2_counterexample :
    Ev.engineInvoked ∈ (stopRecordAudioFromMicrophone ⟨false, true, []⟩ []
      ⟨[0, 0], 16000, 1⟩ "d" "ts" true).2.2 ∧
    (stopRecordAudioFromMicrophone ⟨false, true, []⟩ []
      ⟨[0, 0], 16000, 1⟩ "d" "ts" true).1 = 0 ∧
    (stopRecordAudioFromMicrophone ⟨true, true, ["ok"]⟩ []
      ⟨[0, 0], 16000, 1⟩ "d" "ts" true).1 = 0 := by
  refine ⟨by decide, by decide, by decide⟩

/-- Claim C2 amended: For every run in which the engine is invoked and
fails (model load failure or `whisper_full` error), afterwards the `.wav`
file exists with the full capture (hence non-empty as a file) and the
`.txt` file exists and is empty; `sendAudioFileToWhisper` returns the
error code 3 or 5, but `stopRecordAudioFromMicrophone` discards it and
returns 0 (success) to its caller. -/
theorem C2_engine_failure_leaves_files (env : Env) (fs : Fs)
    (buffer : RecBuffer) (voiceNotesPath timestamp : String) (saveOk : Bool)
    (hinv : Ev.engineInvoked ∈ (stopRecordAudioFromMicrophone env fs buffer
      voiceNotesPath timestamp saveOk).2.2)
    (hfail : env.modelLoads = false ∨ env.whisperOk = false) :
    (stopRecordAudioFromMicrophone env fs buffer voiceNotesPath timestamp
      saveOk).2.1.lookup (audioPathOf voiceNotesPath timestamp)
      = some (.wav buffer) ∧
    0 < (FileData.wav buffer).byteSize ∧
    (stopRecordAudioFromMicrophone env fs buffer voiceNotesPath timestamp
      saveOk).2.1.lookup (textPathOf voiceNotesPath timestamp)
      = some (.txt "") ∧
    ((sendAudioFileToWhisper env
        (fsAfterSaves fs buffer voiceNotesPath timestamp)
        (audioPathOf voiceNotesPath timestamp)
        (textPathOf voiceNotesPath timestamp)).1 = 3 ∨
     (sendAudioFileToWhisper env
        (fsAfterSaves fs buffer voiceNotesPath timestamp)
        (audioPathOf voiceNotesPath timestamp)
        (textPathOf voiceNotesPath timestamp)).1 = 5) ∧
    (stopRecordAudioFromMicrophone env fs buffer voiceNotesPath timestamp
      saveOk).1 = 0 := by
  cases saveOk with
  | false => simp [stopRecordAudioFromMicrophone] at hinv
  | true =>
      have hne : audioPathOf voiceNotesPath timestamp ≠
          textPathOf voiceNotesPath timestamp :=
        wav_txt_path_ne (normalizeDirSlash voiceNotesPath ++ ("note_" ++ timestamp))
      have hlook : (fsAfterSaves fs buffer voiceNotesPath timestamp).lookup
          (audioPathOf voiceNotesPath timestamp) = some (.wav buffer) := by
        unfold fsAfterSaves
        rw [Fs.lookup_insert_ne _ _ _ _ (Ne.symm hne), Fs.lookup_insert_self]
      have hstop : stopRecordAudioFromMicrophone env fs buffer voiceNotesPath
          timestamp true =
          (0, (sendAudioFileToWhisper env
              (fsAfterSaves fs buffer voiceNotesPath timestamp)
              (audioPathOf voiceNotesPath timestamp)
              (textPathOf voiceNotesPath timestamp)).2.1,
            [.savedWav, .savedTxt] ++ (sendAudioFileToWhisper env
              (fsAfterSaves fs buffer voiceNotesPath timestamp)
              (audioPathOf voiceNotesPath timestamp)
              (textPathOf voiceNotesPath timestamp)).2.2) := rfl
      rw [hstop] at hinv ⊢
      cases hres : resample (downmixToMono buffer.samples buffer.channelCount)
          buffer.sampleRate 16000 with
      | error e =>
          rw [show sendAudioFileToWhisper env
              (fsAfterSaves fs buffer voiceNotesPath timestamp)
              (audioPathOf voiceNotesPath timestamp)
              (textPathOf voiceNotesPath timestamp) =
              (2, fsAfterSaves fs buffer voiceNotesPath timestamp, []) from by
            simp [sendAudioFileToWhisper, hlook, hres]] at hinv
          simp at hinv
      | ok res =>
          cases hml : env.modelLoads with
          | false =>
              have hsend : sendAudioFileToWhisper env
                  (fsAfterSaves fs buffer voiceNotesPath timestamp)
                  (audioPathOf voiceNotesPath timestamp)
                  (textPathOf voiceNotesPath timestamp) =
                  (3, fsAfterSaves fs buffer voiceNotesPath timestamp,
                    [.engineInvoked]) := by
                simp [sendAudioFileToWhisper, hlook, hres, hml]
              rw [hsend]
              refine ⟨hlook, by simp [FileData.byteSize], ?_,
                Or.inl rfl, rfl⟩
              unfold fsAfterSaves
              rw [Fs.lookup_insert_self]
          | true =>
              cases hwk : env.whisperOk with
              | false =>
                  have hsend : sendAudioFileToWhisper env
                      (fsAfterSaves fs buffer voiceNotesPath timestamp)
                      (audioPathOf voiceNotesPath timestamp)
                      (textPathOf voiceNotesPath timestamp) =
                      (5, fsAfterSaves fs buffer voiceNotesPath timestamp,
                        [.engineInvoked]) := by
                    simp [sendAudioFileToWhisper, hlook, hres, hml, hwk]
                  rw [hsend]
                  refine ⟨hlook, by simp [FileData.byteSize], ?_, Or.inr rfl, rfl⟩
                  unfold fsAfterSaves
                  rw [Fs.lookup_insert_self]
              | true =>
                  rcases hfail with h | h
                  · rw [hml] at h; exact absurd h (by simp)
                  · rw [hwk] at h; exact absurd h (by simp)

/-- Witness for C2 at a concrete engine-failure run: files present, inner
code 3, outer result 0. -/
theorem C2_witness :
    (stopRecordAudioFromMicrophone ⟨false, true, []⟩ []
      ⟨[0, 0], 16000, 1⟩ "d" "ts" true).2.1.lookup (audioPathOf "d" "ts")
      = some (.wav ⟨[0, 0], 16000, 1⟩) ∧
    (stopRecordAudioFromMicrophone ⟨false, true, []⟩ []
      ⟨[0, 0], 16000, 1⟩ "d" "ts" true).1 = 0 :=
  ⟨(C2_engine_failure_leaves_files ⟨false, true, []⟩ [] ⟨[0, 0], 16000, 1⟩
      "d" "ts" true (by decide) (Or.inl rfl)).1,
   (C2_engine_failure_leaves_files ⟨false, true, []⟩ [] ⟨[0, 0], 16000, 1⟩
      "d" "ts" true (by decide) (Or.inl rfl)).2.2.2.2⟩

/-- The accumulation loop over one frame equals the sum of the frame's
slice of the sample list. -/
theorem foldl_getD_eq_sum_slice (l : List ℤ) (start : ℕ) :
    ∀ n, start + n ≤ l.length →
      (List.range n).foldl (fun a c => a + l.getD (start + c) 0) 0
        = ((l.drop start).take n).sum := by
  intro n
  induction n with
  | zero => intro _; simp
  | succ m ih =>
      intro h
      have hm : start + m ≤ l.length := by omega
      have hlt : start + m < l.length := by omega
      have hdrop : m < (l.drop start).length := by
        simp [List.length_drop]; omega
      rw [List.range_succ, List.foldl_append, ih hm]
      have htake : ((l.drop start).take (m + 1)).sum
          = ((l.drop start).take m).sum + (l.drop start).get ⟨m, hdrop⟩ := by
        rw [List.sum_take_succ _ _ hdrop]
        simp [List.get_eq_getElem]
      rw [htake]
      have hget : l.getD (start + m) 0 = (l.drop start).get ⟨m, hdrop⟩ := by
        simp [List.getD_eq_getElem?_getD, List.getElem?_eq_getElem hlt,
          List.getElem_drop, List.get_eq_getElem]
      simp only [List.foldl_cons, List.foldl_nil]
      rw [hget]

/-- The clamp keeps every output in `[-1, 1]`. -/
theorem clampUnit_bounds (x : ℚ) : -1 ≤ clampUnit x ∧ clampUnit x ≤ 1 := by
  unfold clampUnit
  dsimp only
  split_ifs with h1 h2 <;> constructor <;> linarith

/-- Frame `i` of the downmix reads only indices `< (i+1) * ch ≤ length`. -/
theorem frame_bound {len ch i : ℕ} (hi : i < len / ch) :
    i * ch + ch ≤ len := by
  have h1 : i + 1 ≤ len / ch := hi
  have h2 : (i + 1) * ch ≤ len / ch * ch := Nat.mul_le_mul_right ch h1
  have h3 : len / ch * ch ≤ len := Nat.div_mul_le_self len ch
  rw [Nat.succ_mul] at h2
  omega

/-- Claim C6: For every raw buffer with `channelCount ≥ 1`, `downmixToMono`
maps frame `i` to the sum of its `channelCount` interleaved samples
divided by `channelCount * 32768`, clamped to `[-1, 1]`; every output
lies in `[-1, 1]`; the 2-channel frame `[16384, -16384]` yields `0`, and
`[32767, 32767]` yields `32767/32768 ≈ 0.99997 < 1`. -/
theorem C6_downmix_formula (samples : List ℤ) (ch : ℕ) (hch : 1 ≤ ch) :
    (∀ i, i < samples.length / ch →
      (downmixToMono samples ch).getD i 0 =
        clampUnit (((((samples.drop (i * ch)).take ch).sum : ℤ) : ℚ) /
          ((ch : ℚ) * 32768))) ∧
    (∀ x ∈ downmixToMono samples ch, -1 ≤ x ∧ x ≤ 1) ∧
    downmixToMono [16384, -16384] 2 = [0] ∧
    downmixToMono [32767, 32767] 2 = [32767 / 32768] ∧
    (32767 : ℚ) / 32768 < 1 := by
  refine ⟨?_, ?_, ?_, ?_, by norm_num⟩
  · intro i hi
    rw [List.getD_eq_getElem?_getD]
    simp only [downmixToMono]
    rw [List.getElem?_map, List.getElem?_range hi]
    simp only [Option.map_some', Option.getD_some]
    rw [foldl_getD_eq_sum_slice samples (i * ch) ch (frame_bound hi)]
  · intro x hx
    simp only [downmixToMono, List.mem_map] at hx
    obtain ⟨i, _, rfl⟩ := hx
    exact clampUnit_bounds _
  · simp [downmixToMono, clampUnit, List.range_succ]
    norm_num
  · simp [downmixToMono, clampUnit, List.range_succ]
    norm_num

/-- Witness for C6 at the 2-channel frames of the spec's test vector. -/
theorem C6_witness :
    (1 ≤ 2 ∧ downmixToMono [16384, -16384] 2 = [0]) ∧
    downmixToMono [32767, 32767] 2 = [32767 / 32768] :=
  ⟨⟨by decide, (C6_downmix_formula [16384, -16384] 2 (by decide)).2.2.1⟩,
   (C6_downmix_formula [32767, 32767] 2 (by decide)).2.2.2.1⟩

/-- Claim C7: The code has no `channelCount == 0` guard: with
`channelCount = 0`, `frames = sampleCount / channelCount` is executed as
a division by zero (undefined behaviour in C++; `0` in the `Nat` model of
the embedding), so the function returns the empty list normally instead
of failing fast with any `InvalidChannelCount` error — no such error
exists anywhere in the code. -/
theorem C7_division_by_zero_channel_unguarded (samples : List ℤ) :
    downmixToMono samples 0 = [] := by
  simp [downmixToMono]

/-- Claim C8 counterexample: When the rates are equal — the pipeline's
case `sampleRate == WHISPER_SAMPLE_RATE` — the empty-input check is never
executed: `resample` of the empty sequence at equal rates returns the
empty sequence successfully rather than failing with `EmptyInput`. -/
theorem C8_counterexample :
    resample [] 16000 16000 = .ok [] := rfl

/-- Claim C8 amended: For every pair of distinct rates, `resample`
applied to a zero-length input fails with `EmptyInput`; when the rates
are equal the input (empty or not) is returned unchanged. -/
theorem C8_empty_input (fromRate toRate : ℕ) (h : fromRate ≠ toRate) :
    resample [] fromRate toRate = .error .emptyInput := by
  simp [resample, h]

/-- Witness for C8 at the rate pair 8000 → 16000. -/
theorem C8_witness :
    (8000 : ℕ) ≠ 16000 ∧ resample [] 8000 16000 = .error .emptyInput :=
  ⟨by decide, C8_empty_input 8000 16000 (by decide)⟩

/-- Claim C10: For `channelCount ≥ 1` the downmix yields exactly
`⌊sampleCount / channelCount⌋` output samples, and the output is
unchanged when the trailing samples beyond the last complete frame are
dropped: they contribute nothing. -/
theorem C10_partial_frame_discarded (samples : List ℤ) (ch : ℕ)
    (hch : 1 ≤ ch) :
    (downmixToMono samples ch).length = samples.length / ch ∧
    downmixToMono samples ch =
      downmixToMono (samples.take (samples.length / ch * ch)) ch := by
  have hchpos : 0 < ch := hch
  have hN : samples.length / ch * ch ≤ samples.length :=
    Nat.div_mul_le_self samples.length ch
  have hlen : (samples.take (samples.length / ch * ch)).length =
      samples.length / ch * ch := by
    simp [List.length_take]
    omega
  have hframes : (samples.take (samples.length / ch * ch)).length / ch =
      samples.length / ch := by
    rw [hlen, Nat.mul_div_cancel _ hchpos]
  constructor
  · simp [downmixToMono]
  · simp only [downmixToMono, hframes]
    apply List.map_congr_left
    intro i hi
    rw [List.mem_range] at hi
    have hbound : i * ch + ch ≤ samples.length / ch * ch := by
      have h4 : (i + 1) * ch ≤ samples.length / ch * ch :=
        Nat.mul_le_mul_right ch hi
      rw [Nat.succ_mul] at h4
      omega
    have hb1 : i * ch + ch ≤ samples.length := le_trans hbound hN
    have hb2 : i * ch + ch ≤ (samples.take (samples.length / ch * ch)).length := by
      rw [hlen]; exact hbound
    rw [foldl_getD_eq_sum_slice samples (i * ch) ch hb1,
      foldl_getD_eq_sum_slice _ (i * ch) ch hb2]
    have hslice : ((samples.take (samples.length / ch * ch)).drop (i * ch)).take ch
        = (samples.drop (i * ch)).take ch := by
      rw [List.drop_take, List.take_take]
      congr 1
      omega
    rw [hslice]

/-- Witness for C10: three interleaved samples at two channels form one
frame; the trailing sample is discarded. -/
theorem C10_witness :
    (downmixToMono [5, 7, 9] 2).length = 1 ∧
    downmixToMono [5, 7, 9] 2 = downmixToMono [5, 7] 2 :=
  ⟨(C10_partial_frame_discarded [5, 7, 9] 2 (by decide)).1,
   (C10_partial_frame_discarded [5, 7, 9] 2 (by decide)).2⟩

/-- Claim C9 counterexample: `createNewTextNote` returns a `Note` whose
`wavPath` is set (to the prospective `.wav` path, although no audio file
exists), contradicting the claim that `audioPath` is unset. -/
theorem C9_counterexample :
    (createNewTextNote "d/" "note_X" "10:00" []).1.wavPath = "d/note_X.wav" ∧
    "d/note_X.wav" ≠ "" := by
  refine ⟨rfl, by decide⟩

/-- Claim C9 amended: Every call to `createNewTextNote` immediately
writes the placeholder `"New note\n"` to `dir/base.txt` and returns a
`Note` whose `txtPath` is that file and whose `text` is the placeholder —
but whose `wavPath` is also set, to the prospective `.wav` path. -/
theorem C9_create_writes_placeholder (settingsPath base nowLabel : String)
    (fs : Fs) :
    (createNewTextNote settingsPath base nowLabel fs).2.lookup
      (normalizedVoiceDir settingsPath ++ base ++ ".txt")
      = some (.txt "New note\n") ∧
    (createNewTextNote settingsPath base nowLabel fs).1.txtPath
      = normalizedVoiceDir settingsPath ++ base ++ ".txt" ∧
    (createNewTextNote settingsPath base nowLabel fs).1.text = "New note\n" ∧
    (createNewTextNote settingsPath base nowLabel fs).1.base = base ∧
    (createNewTextNote settingsPath base nowLabel fs).1.wavPath
      = normalizedVoiceDir settingsPath ++ base ++ ".wav" := by
  refine ⟨?_, rfl, rfl, rfl, rfl⟩
  simp only [createNewTextNote]
  exact Fs.lookup_insert_self _ _ _

/-! ## Reconciliation lemmas -/

/-- The key (base-name) column of the scan's map. -/
def mapKeys (m : List (String × PathPair)) : List String := m.map Prod.fst

theorem upsert_keys (m : List (String × PathPair)) (k : String)
    (f : PathPair → PathPair) :
    mapKeys (upsert m k f) =
      if k ∈ mapKeys m then mapKeys m else mapKeys m ++ [k] := by
  induction m with
  | nil => simp [upsert, mapKeys]
  | cons hd t ih =>
      obtain ⟨k', v⟩ := hd
      by_cases h : k' = k
      · subst h
        simp [upsert, mapKeys]
      · simp only [upsert, if_neg h, mapKeys, List.map_cons] at ih ⊢
        rw [ih]
        by_cases hmem : k ∈ List.map Prod.fst t
        · rw [if_pos hmem, if_pos (List.mem_cons_of_mem _ hmem)]
        · have hnotin : k ∉ k' :: List.map Prod.fst t := by
            intro hk
            rcases List.mem_cons.mp hk with hk' | hk'
            · exact h hk'.symm
            · exact hmem hk'
          rw [if_neg hmem, if_neg hnotin]
          simp

theorem upsert_nodup {m : List (String × PathPair)} (k : String)
    (f : PathPair → PathPair) (h : (mapKeys m).Nodup) :
    (mapKeys (upsert m k f)).Nodup := by
  rw [upsert_keys]
  by_cases hmem : k ∈ mapKeys m
  · simp [hmem, h]
  · simp [hmem, List.nodup_append, h]

theorem scanStep_nodup (dir : String) (e : FileEntry)
    {m : List (String × PathPair)} (h : (mapKeys m).Nodup) :
    (mapKeys (scanStep dir m e)).Nodup := by
  unfold scanStep
  split_ifs <;> first | exact upsert_nodup _ _ h | exact h

theorem foldl_scanStep_nodup (dir : String) (l : List FileEntry) :
    ∀ m, (mapKeys m).Nodup → (mapKeys (l.foldl (scanStep dir) m)).Nodup := by
  induction l with
  | nil => intro m h; exact h
  | cons e t ih =>
      intro m h
      exact ih _ (scanStep_nodup dir e h)

theorem buildMap_nodup (dir : String) (listing : List FileEntry) :
    (mapKeys (buildMap dir listing)).Nodup :=
  foldl_scanStep_nodup dir listing [] (by simp [mapKeys])

/-- Membership after an insert-or-update: either an untouched entry of the
map, or the updated/new entry at key `k`. -/
theorem mem_upsert {m : List (String × PathPair)} {k : String}
    {f : PathPair → PathPair} {kv : String × PathPair}
    (hmem : kv ∈ upsert m k f) :
    kv ∈ m ∨ ∃ old, kv = (k, f old) ∧
      (old = PathPair.empty ∨ (k, old) ∈ m) := by
  induction m with
  | nil =>
      simp only [upsert, List.mem_singleton] at hmem
      exact Or.inr ⟨PathPair.empty, hmem, Or.inl rfl⟩
  | cons hd t ih =>
      obtain ⟨k', v⟩ := hd
      by_cases hk : k' = k
      · subst hk
        simp only [upsert, if_pos rfl] at hmem
        rcases List.mem_cons.mp hmem with h | h
        · exact Or.inr ⟨v, h, Or.inr (List.mem_cons_self _ _)⟩
        · exact Or.inl (List.mem_cons_of_mem _ h)
      · simp only [upsert, if_neg hk] at hmem
        rcases List.mem_cons.mp hmem with h | h
        · exact Or.inl (by simp [h])
        · rcases ih h with h' | ⟨old, heq, hold⟩
          · exact Or.inl (List.mem_cons_of_mem _ h')
          · exact Or.inr ⟨old, heq,
              hold.imp id (fun hm => List.mem_cons_of_mem _ hm)⟩

/-- Every path field stored in the map is either empty or the full path of
some listing entry, and at least one of the two fields is set. -/
def pairOk (dir : String) (listing : List FileEntry) (pp : PathPair) : Prop :=
  (pp.txtPath = "" ∨ ∃ e ∈ listing, e.path dir = pp.txtPath) ∧
  (pp.wavPath = "" ∨ ∃ e ∈ listing, e.path dir = pp.wavPath) ∧
  (pp.txtPath ≠ "" ∨ pp.wavPath ≠ "")

theorem path_ne_empty (dir : String) (e : FileEntry)
    (h : e.ext.length ≠ 0) : e.path dir ≠ "" := by
  intro hc
  have hlen : (e.path dir).length = 0 := by rw [hc]; rfl
  unfold FileEntry.path at hlen
  rw [String.length_append, String.length_append] at hlen
  omega

theorem scanStep_pairOk (dir : String) (listing : List FileEntry)
    (e : FileEntry) (he : e ∈ listing) {m : List (String × PathPair)}
    (hm : ∀ kv ∈ m, pairOk dir listing kv.2) :
    ∀ kv ∈ scanStep dir m e, pairOk dir listing kv.2 := by
  intro kv hkv
  unfold scanStep at hkv
  split_ifs at hkv with hreg htxt hwav
  · rcases mem_upsert hkv with h | ⟨old, rfl, hold⟩
    · exact hm _ h
    · have holdOk : old.txtPath = "" ∨ ∃ e' ∈ listing, e'.path dir = old.txtPath ∧
          True := by
        rcases hold with rfl | hmem
        · exact Or.inl rfl
        · rcases (hm _ hmem).1 with h | ⟨e', he', hp⟩
          · exact Or.inl h
          · exact Or.inr ⟨e', he', hp, trivial⟩
      refine ⟨Or.inr ⟨e, he, rfl⟩, ?_, Or.inl ?_⟩
      · rcases hold with rfl | hmem
        · exact Or.inl rfl
        · exact (hm _ hmem).2.1
      · apply path_ne_empty
        cases htxt with
        | inl hx => rw [hx]; decide
        | inr hx => rw [hx]; decide
  · rcases mem_upsert hkv with h | ⟨old, rfl, hold⟩
    · exact hm _ h
    · refine ⟨?_, Or.inr ⟨e, he, rfl⟩, Or.inr ?_⟩
      · rcases hold with rfl | hmem
        · exact Or.inl rfl
        · exact (hm _ hmem).1
      · apply path_ne_empty
        cases hwav with
        | inl hx => rw [hx]; decide
        | inr hx => rw [hx]; decide
  · exact hm _ hkv
  · exact hm _ hkv

theorem buildMap_pairOk (dir : String) (listing : List FileEntry) :
    ∀ kv ∈ buildMap dir listing, pairOk dir listing kv.2 := by
  have main : ∀ l : List FileEntry, (∀ e ∈ l, e ∈ listing) →
      ∀ m, (∀ kv ∈ m, pairOk dir listing kv.2) →
      ∀ kv ∈ l.foldl (scanStep dir) m, pairOk dir listing kv.2 := by
    intro l
    induction l with
    | nil => intro _ m hm kv hkv; exact hm kv hkv
    | cons e t ih =>
        intro hsub m hm
        exact ih (fun x hx => hsub x (List.mem_cons_of_mem _ hx)) _
          (scanStep_pairOk dir listing e (hsub e (List.mem_cons_self _ _)) hm)
  exact main listing (fun _ h => h) [] (by simp)

/-- A path that occurs in the listing has a last-write-time label. -/
theorem mtimeIn_isSome_of_exists (dir : String) (listing : List FileEntry)
    (p : String) (h : ∃ e ∈ listing, e.path dir = p) :
    ∃ l, mtimeIn dir listing p = some l := by
  obtain ⟨e, he, hp⟩ := h
  have hsome : (listing.find? (fun e' => e'.path dir = p)).isSome :=
    List.find?_isSome.mpr ⟨e, he, by simp [hp]⟩
  obtain ⟨e', he'⟩ := Option.isSome_iff_exists.mp hsome
  exact ⟨e'.mtimeLabel, by simp [mtimeIn, he']⟩

/-- The materialized note does not depend on `nowShort()`: every map entry
of a real scan names paths present in the listing, whose last write time
is found, so the `now` fallback is dead on such entries. -/
theorem materializeNote_now_indep (dir now1 now2 : String)
    (listing : List FileEntry) (kv : String × PathPair)
    (h : pairOk dir listing kv.2) :
    materializeNote dir now1 listing kv = materializeNote dir now2 listing kv := by
  obtain ⟨htxt, hwav, hne⟩ := h
  have hchosen : ∃ l, mtimeIn dir listing
      (if kv.2.txtPath ≠ "" then kv.2.txtPath
       else if kv.2.wavPath ≠ "" then kv.2.wavPath else "") = some l := by
    by_cases ht : kv.2.txtPath = ""
    · have hw : kv.2.wavPath ≠ "" := hne.resolve_left (by simp [ht])
      rw [if_neg (by simp [ht]), if_pos hw]
      exact mtimeIn_isSome_of_exists dir listing _ (hwav.resolve_left hw)
    · rw [if_pos ht]
      exact mtimeIn_isSome_of_exists dir listing _ (htxt.resolve_left ht)
  obtain ⟨l, hl⟩ := hchosen
  unfold materializeNote
  simp only [hl]

/-- Strict version of the sort comparator: strictly newer base. -/
def noteGT (a b : Note) : Prop := b.base.data < a.base.data

instance : IsAntisymm Note noteGT :=
  ⟨fun _ _ h1 h2 => absurd (lt_trans h1 h2) (lt_irrefl _)⟩

/-- A `noteGE`-sorted list with pairwise-distinct bases is strictly
sorted. -/
theorem sorted_strict {l : List Note} (hs : l.Sorted noteGE)
    (hn : (l.map (fun n => n.base)).Nodup) : l.Sorted noteGT := by
  induction l with
  | nil => simp
  | cons a t ih =>
      rw [List.sorted_cons] at hs ⊢
      rw [List.map_cons, List.nodup_cons] at hn
      refine ⟨fun b hb => ?_, ih hs.2 hn.2⟩
      have hge : noteGE a b := hs.1 b hb
      have hne : a.base ≠ b.base := by
        intro hc
        exact hn.1 (hc ▸ List.mem_map_of_mem (fun n => n.base) hb)
      have hdne : b.base.data ≠ a.base.data := by
        intro hc
        apply hne
        cases hab : a.base
        cases hbb : b.base
        rw [hab, hbb] at hc
        simp only [hab, hbb] at hc ⊢
        exact congrArg String.mk hc.symm
      exact lt_of_le_of_ne hge hdne

/-- The base of a materialized note is its map key. -/
theorem materializeNote_base (dir now : String) (listing : List FileEntry)
    (kv : String × PathPair) :
    (materializeNote dir now listing kv).base = kv.1 := rfl

/-- Two scans of the same snapshot agree, whatever order the
`unordered_map` is enumerated in and whatever the wall-clock time of each
run: materialization ignores the clock, the merged keys are unique, and
sorting by the strict order pins the output order. -/
theorem scanEnum_eq_of_perm (dir now1 now2 : String)
    (listing : List FileEntry) (e1 e2 : List (String × PathPair))
    (h1 : e1.Perm (buildMap dir listing)) (h2 : e2.Perm (buildMap dir listing)) :
    scanVoiceNotesEnum dir now1 listing e1 = scanVoiceNotesEnum dir now2 listing e2 := by
  have hpair := buildMap_pairOk dir listing
  have hmap_eq : (buildMap dir listing).map (materializeNote dir now1 listing)
      = (buildMap dir listing).map (materializeNote dir now2 listing) :=
    List.map_congr_left (fun kv hkv =>
      materializeNote_now_indep dir now1 now2 listing kv (hpair kv hkv))
  have hperm : (e1.map (materializeNote dir now1 listing)).Perm
      (e2.map (materializeNote dir now2 listing)) := by
    have ha : (e1.map (materializeNote dir now1 listing)).Perm
        ((buildMap dir listing).map (materializeNote dir now2 listing)) := by
      rw [← hmap_eq]
      exact h1.map _
    exact ha.trans ((h2.map _).symm)
  have hbases : ∀ (e : List (String × PathPair)) (now : String),
      e.Perm (buildMap dir listing) →
      ((List.insertionSort noteGE (e.map (materializeNote dir now listing))).map
        (fun n => n.base)).Nodup := by
    intro e now he
    have hx : ((List.insertionSort noteGE
        (e.map (materializeNote dir now listing))).map (fun n => n.base)).Perm
        ((e.map (materializeNote dir now listing)).map (fun n => n.base)) :=
      (List.perm_insertionSort _ _).map _
    have hy : (e.map (materializeNote dir now listing)).map (fun n => n.base)
        = e.map Prod.fst := by
      rw [List.map_map]
      exact List.map_congr_left (fun kv _ => materializeNote_base _ _ _ _)
    have hz : (e.map Prod.fst).Perm (mapKeys (buildMap dir listing)) :=
      he.map _
    rw [hy] at hx
    exact (hx.trans hz).nodup_iff.mpr (buildMap_nodup dir listing)
  have hs1 : (List.insertionSort noteGE
      (e1.map (materializeNote dir now1 listing))).Sorted noteGT :=
    sorted_strict (List.sorted_insertionSort _ _) (hbases e1 now1 h1)
  have hs2 : (List.insertionSort noteGE
      (e2.map (materializeNote dir now2 listing))).Sorted noteGT :=
    sorted_strict (List.sorted_insertionSort _ _) (hbases e2 now2 h2)
  have hperm_sorted : (List.insertionSort noteGE
      (e1.map (materializeNote dir now1 listing))).Perm
      (List.insertionSort noteGE (e2.map (materializeNote dir now2 listing))) :=
    ((List.perm_insertionSort _ _).trans hperm).trans
      (List.perm_insertionSort _ _).symm
  exact List.eq_of_perm_of_sorted hperm_sorted hs1 hs2

theorem upsert_mem_of_ne {m : List (String × PathPair)} {k' : String}
    {f : PathPair → PathPair} {k : String} {pp : PathPair}
    (hne : k ≠ k') (h : (k, pp) ∈ m) : (k, pp) ∈ upsert m k' f := by
  induction m with
  | nil => simp at h
  | cons hd t ih =>
      obtain ⟨k2, v⟩ := hd
      by_cases hk2 : k2 = k'
      · subst hk2
        simp only [upsert, if_pos rfl]
        rcases List.mem_cons.mp h with h | h
        · exact absurd (congrArg Prod.fst h) hne
        · exact List.mem_cons_of_mem _ h
      · simp only [upsert, if_neg hk2]
        rcases List.mem_cons.mp h with h | h
        · exact h ▸ List.mem_cons_self _ _
        · exact List.mem_cons_of_mem _ (ih h)

theorem upsert_update_of_mem_nodup {m : List (String × PathPair)}
    {k : String} {f : PathPair → PathPair} {pp : PathPair}
    (hnd : (mapKeys m).Nodup) (h : (k, pp) ∈ m) :
    (k, f pp) ∈ upsert m k f := by
  induction m with
  | nil => simp at h
  | cons hd t ih =>
      obtain ⟨k2, v⟩ := hd
      rw [mapKeys, List.map_cons, List.nodup_cons] at hnd
      by_cases hk2 : k2 = k
      · subst hk2
        simp only [upsert, if_pos rfl]
        rcases List.mem_cons.mp h with h | h
        · rw [show pp = v from congrArg Prod.snd h]
          exact List.mem_cons_self _ _
        · exact absurd (List.mem_map_of_mem Prod.fst h) hnd.1
      · simp only [upsert, if_neg hk2]
        rcases List.mem_cons.mp h with h | h
        · exact absurd (congrArg Prod.fst h) (fun hc => hk2 hc.symm)
        · exact List.mem_cons_of_mem _ (ih hnd.2 h)

theorem upsert_new_exists (m : List (String × PathPair)) (k : String)
    (f : PathPair → PathPair) :
    ∃ old, (k, f old) ∈ upsert m k f := by
  induction m with
  | nil => exact ⟨PathPair.empty, List.mem_singleton.mpr rfl⟩
  | cons hd t ih =>
      obtain ⟨k2, v⟩ := hd
      by_cases hk2 : k2 = k
      · subst hk2
        exact ⟨v, by simp [upsert]⟩
      · obtain ⟨old, hold⟩ := ih
        refine ⟨old, ?_⟩
        simp only [upsert, if_neg hk2]
        exact List.mem_cons_of_mem _ hold

/-- Key `k` is in the map with its text path set. -/
def hasTxt (m : List (String × PathPair)) (k : String) : Prop :=
  ∃ pp, (k, pp) ∈ m ∧ pp.txtPath ≠ ""

/-- Key `k` is in the map with its audio path set. -/
def hasWav (m : List (String × PathPair)) (k : String) : Prop :=
  ∃ pp, (k, pp) ∈ m ∧ pp.wavPath ≠ ""

theorem scanStep_preserves_hasTxt (dir : String) (e : FileEntry)
    {m : List (String × PathPair)} {k : String}
    (hnd : (mapKeys m).Nodup) (h : hasTxt m k) :
    hasTxt (scanStep dir m e) k := by
  obtain ⟨pp, hmem, hne⟩ := h
  unfold scanStep
  split_ifs with hreg htxt hwav
  · by_cases hk : k = e.stem
    · subst hk
      refine ⟨{ pp with txtPath := e.path dir },
        upsert_update_of_mem_nodup hnd hmem, ?_⟩
      apply path_ne_empty
      cases htxt with
      | inl hx => rw [hx]; decide
      | inr hx => rw [hx]; decide
    · exact ⟨pp, upsert_mem_of_ne hk hmem, hne⟩
  · by_cases hk : k = e.stem
    · subst hk
      exact ⟨{ pp with wavPath := e.path dir },
        upsert_update_of_mem_nodup hnd hmem, hne⟩
    · exact ⟨pp, upsert_mem_of_ne hk hmem, hne⟩
  · exact ⟨pp, hmem, hne⟩
  · exact ⟨pp, hmem, hne⟩

theorem scanStep_preserves_hasWav (dir : String) (e : FileEntry)
    {m : List (String × PathPair)} {k : String}
    (hnd : (mapKeys m).Nodup) (h : hasWav m k) :
    hasWav (scanStep dir m e) k := by
  obtain ⟨pp, hmem, hne⟩ := h
  unfold scanStep
  split_ifs with hreg htxt hwav
  · by_cases hk : k = e.stem
    · subst hk
      exact ⟨{ pp with txtPath := e.path dir },
        upsert_update_of_mem_nodup hnd hmem, hne⟩
    · exact ⟨pp, upsert_mem_of_ne hk hmem, hne⟩
  · by_cases hk : k = e.stem
    · subst hk
      refine ⟨{ pp with wavPath := e.path dir },
        upsert_update_of_mem_nodup hnd hmem, ?_⟩
      apply path_ne_empty
      cases hwav with
      | inl hx => rw [hx]; decide
      | inr hx => rw [hx]; decide
    · exact ⟨pp, upsert_mem_of_ne hk hmem, hne⟩
  · exact ⟨pp, hmem, hne⟩
  · exact ⟨pp, hmem, hne⟩

theorem scanStep_establishes_hasTxt (dir : String) (e : FileEntry)
    (m : List (String × PathPair)) (hreg : e.isRegular = true)
    (htxt : e.ext = ".txt" ∨ e.ext = ".TXT") :
    hasTxt (scanStep dir m e) e.stem := by
  unfold scanStep
  rw [if_pos hreg, if_pos htxt]
  obtain ⟨old, hold⟩ := upsert_new_exists m e.stem
    (fun pp => { pp with txtPath := e.path dir })
  refine ⟨{ old with txtPath := e.path dir }, hold, ?_⟩
  apply path_ne_empty
  cases htxt with
  | inl hx => rw [hx]; decide
  | inr hx => rw [hx]; decide

theorem scanStep_establishes_hasWav (dir : String) (e : FileEntry)
    (m : List (String × PathPair)) (hreg : e.isRegular = true)
    (htxt : ¬(e.ext = ".txt" ∨ e.ext = ".TXT"))
    (hwav : e.ext = ".wav" ∨ e.ext = ".WAV") :
    hasWav (scanStep dir m e) e.stem := by
  unfold scanStep
  rw [if_pos hreg, if_neg htxt, if_pos hwav]
  obtain ⟨old, hold⟩ := upsert_new_exists m e.stem
    (fun pp => { pp with wavPath := e.path dir })
  refine ⟨{ old with wavPath := e.path dir }, hold, ?_⟩
  apply path_ne_empty
  cases hwav with
  | inl hx => rw [hx]; decide
  | inr hx => rw [hx]; decide

theorem foldl_preserves_hasTxt (dir : String) (l : List FileEntry) :
    ∀ m k, (mapKeys m).Nodup → hasTxt m k →
      hasTxt (l.foldl (scanStep dir) m) k := by
  induction l with
  | nil => intro m k _ h; exact h
  | cons e t ih =>
      intro m k hnd h
      exact ih _ k (scanStep_nodup dir e hnd)
        (scanStep_preserves_hasTxt dir e hnd h)

theorem foldl_preserves_hasWav (dir : String) (l : List FileEntry) :
    ∀ m k, (mapKeys m).Nodup → hasWav m k →
      hasWav (l.foldl (scanStep dir) m) k := by
  induction l with
  | nil => intro m k _ h; exact h
  | cons e t ih =>
      intro m k hnd h
      exact ih _ k (scanStep_nodup dir e hnd)
        (scanStep_preserves_hasWav dir e hnd h)

theorem buildMap_hasTxt (dir : String) (listing : List FileEntry)
    (e : FileEntry) (he : e ∈ listing) (hreg : e.isRegular = true)
    (htxt : e.ext = ".txt" ∨ e.ext = ".TXT") :
    hasTxt (buildMap dir listing) e.stem := by
  obtain ⟨l1, l2, rfl⟩ := List.append_of_mem he
  unfold buildMap
  rw [List.foldl_append, List.foldl_cons]
  exact foldl_preserves_hasTxt dir l2 _ _
    (scanStep_nodup dir e (foldl_scanStep_nodup dir l1 [] (by simp [mapKeys])))
    (scanStep_establishes_hasTxt dir e _ hreg htxt)

theorem buildMap_hasWav (dir : String) (listing : List FileEntry)
    (e : FileEntry) (he : e ∈ listing) (hreg : e.isRegular = true)
    (hwav : e.ext = ".wav" ∨ e.ext = ".WAV") :
    hasWav (buildMap dir listing) e.stem := by
  obtain ⟨l1, l2, rfl⟩ := List.append_of_mem he
  unfold buildMap
  rw [List.foldl_append, List.foldl_cons]
  by_cases htxt : e.ext = ".txt" ∨ e.ext = ".TXT"
  · rcases hwav with h | h <;> rcases htxt with h' | h' <;>
      rw [h] at h' <;> simp at h'
  · exact foldl_preserves_hasWav dir l2 _ _
      (scanStep_nodup dir e (foldl_scanStep_nodup dir l1 [] (by simp [mapKeys])))
      (scanStep_establishes_hasWav dir e _ hreg htxt hwav)

/-- Bases of the scanned notes are unique: one `Note` per base name. -/
theorem scanEnum_bases_nodup (dir now : String) (listing : List FileEntry)
    (e : List (String × PathPair)) (he : e.Perm (buildMap dir listing)) :
    ((scanVoiceNotesEnum dir now listing e).map (fun n => n.base)).Nodup := by
  have hx : ((List.insertionSort noteGE
      (e.map (materializeNote dir now listing))).map (fun n => n.base)).Perm
      ((e.map (materializeNote dir now listing)).map (fun n => n.base)) :=
    (List.perm_insertionSort _ _).map _
  have hy : (e.map (materializeNote dir now listing)).map (fun n => n.base)
      = e.map Prod.fst := by
    rw [List.map_map]
    exact List.map_congr_left (fun kv _ => materializeNote_base _ _ _ _)
  have hz : (e.map Prod.fst).Perm (mapKeys (buildMap dir listing)) :=
    he.map _
  rw [hy] at hx
  exact (hx.trans hz).nodup_iff.mpr (buildMap_nodup dir listing)

theorem scan_bases_nodup (dir now : String) (listing : List FileEntry) :
    ((scanVoiceNotes dir now listing).map (fun n => n.base)).Nodup :=
  scanEnum_bases_nodup dir now listing _ (List.Perm.refl _)

theorem scan_sorted_strict (dir now : String) (listing : List FileEntry) :
    (scanVoiceNotes dir now listing).Sorted noteGT :=
  sorted_strict (List.sorted_insertionSort _ _)
    (scan_bases_nodup dir now listing)

theorem scan_mem_of_hasTxt (dir now : String) (listing : List FileEntry)
    {k : String} (h : hasTxt (buildMap dir listing) k) :
    ∃ n ∈ scanVoiceNotes dir now listing, n.base = k ∧ n.txtPath ≠ "" := by
  obtain ⟨pp, hmem, hne⟩ := h
  refine ⟨materializeNote dir now listing (k, pp), ?_, rfl, hne⟩
  unfold scanVoiceNotes scanVoiceNotesEnum
  rw [List.mem_insertionSort]
  exact List.mem_map_of_mem _ hmem

theorem scan_mem_of_hasWav (dir now : String) (listing : List FileEntry)
    {k : String} (h : hasWav (buildMap dir listing) k) :
    ∃ n ∈ scanVoiceNotes dir now listing, n.base = k ∧ n.wavPath ≠ "" := by
  obtain ⟨pp, hmem, hne⟩ := h
  refine ⟨materializeNote dir now listing (k, pp), ?_, rfl, hne⟩
  unfold scanVoiceNotes scanVoiceNotesEnum
  rw [List.mem_insertionSort]
  exact List.mem_map_of_mem _ hmem

/-- Claim C3 counterexample: Extension matching is not case-insensitive:
the scan compares the extension against exactly `".txt"` and `".TXT"`
(and `".wav"`/`".WAV"`), so a file `note_A.Txt` is skipped entirely and
yields no Note at all — where case-insensitive matching would have
produced one Note with `textPath` set. -/
theorem C3_counterexample :
    scanVoiceNotes "d/" "now" [⟨"note_A", ".Txt", true, "hello", "10:00"⟩]
      = [] := by decide

/-- Claim C3 amended: Reconciliation produces exactly one Note per unique
base name; a regular file with extension exactly `".txt"` or `".TXT"`
yields a Note with that base and `textPath` set, and exactly `".wav"` or
`".WAV"` yields one with `audioPath` set (other casings are skipped).
In particular `note_A.txt` and `note_A.wav` merge into a single Note with
both paths set, and a lone `note_B.wav` yields one Note with `audioPath`
set and empty text. -/
theorem C3_one_note_per_base (dir now : String) (listing : List FileEntry) :
    ((scanVoiceNotes dir now listing).map (fun n => n.base)).Nodup ∧
    (∀ e ∈ listing, e.isRegular = true → e.ext = ".txt" ∨ e.ext = ".TXT" →
      ∃ n ∈ scanVoiceNotes dir now listing, n.base = e.stem ∧ n.txtPath ≠ "") ∧
    (∀ e ∈ listing, e.isRegular = true → e.ext = ".wav" ∨ e.ext = ".WAV" →
      ∃ n ∈ scanVoiceNotes dir now listing, n.base = e.stem ∧ n.wavPath ≠ "") ∧
    scanVoiceNotes "d/" "now"
      [⟨"note_A", ".txt", true, "hello", "10:00"⟩,
       ⟨"note_A", ".wav", true, "", "10:01"⟩] =
      [{ base := "note_A", txtPath := "d/note_A.txt",
         wavPath := "d/note_A.wav", text := "hello", created := "10:00" }] ∧
    scanVoiceNotes "d/" "now" [⟨"note_B", ".wav", true, "", "10:02"⟩] =
      [{ base := "note_B", txtPath := "", wavPath := "d/note_B.wav",
         text := "", created := "10:02" }] := by
  refine ⟨scan_bases_nodup dir now listing, ?_, ?_, by decide, by decide⟩
  · intro e he hreg htxt
    exact scan_mem_of_hasTxt dir now listing
      (buildMap_hasTxt dir listing e he hreg htxt)
  · intro e he hreg hwav
    exact scan_mem_of_hasWav dir now listing
      (buildMap_hasWav dir listing e he hreg hwav)

/-- Witness for C3 at a two-file listing: the `.txt` and `.wav` entries
are both surfaced on the single merged Note. -/
theorem C3_witness :
    (⟨"note_A", ".txt", true, "hello", "10:00"⟩ : FileEntry) ∈
      ([⟨"note_A", ".txt", true, "hello", "10:00"⟩,
        ⟨"note_A", ".wav", true, "", "10:01"⟩] : List FileEntry) ∧
    ∃ n ∈ scanVoiceNotes "d/" "now"
        [⟨"note_A", ".txt", true, "hello", "10:00"⟩,
         ⟨"note_A", ".wav", true, "", "10:01"⟩],
      n.base = "note_A" ∧ n.txtPath ≠ "" :=
  ⟨by decide,
   (C3_one_note_per_base "d/" "now"
      [⟨"note_A", ".txt", true, "hello", "10:00"⟩,
       ⟨"note_A", ".wav", true, "", "10:01"⟩]).2.1
     ⟨"note_A", ".txt", true, "hello", "10:00"⟩ (by decide) rfl (Or.inl rfl)⟩

/-- Claim C4: The reconciliation output is strictly descending by Note id
(newest first) — ids are unique, so no ties between distinct entries
exist and the order is fully deterministic; in particular
`note_2024-01-02_00-00-00` precedes `note_2024-01-01_00-00-00`. -/
theorem C4_descending_by_id (dir now : String) (listing : List FileEntry) :
    (scanVoiceNotes dir now listing).Sorted noteGT ∧
    (scanVoiceNotes "d/" "now"
      [⟨"note_2024-01-01_00-00-00", ".txt", true, "x", "09:00"⟩,
       ⟨"note_2024-01-02_00-00-00", ".txt", true, "y", "09:30"⟩]).map
        (fun n => n.base) =
      ["note_2024-01-02_00-00-00", "note_2024-01-01_00-00-00"] :=
  ⟨scan_sorted_strict dir now listing, by decide⟩

/-- Claim C5: Reconciliation is idempotent: two runs over the same
directory snapshot yield the same ordered sequence of Notes — whatever
wall-clock times the two runs observe and whatever orders the internal
`unordered_map` enumerates its entries in. -/
theorem C5_reconcile_idempotent (dir now1 now2 : String)
    (listing : List FileEntry) (e1 e2 : List (String × PathPair))
    (h1 : e1.Perm (buildMap dir listing))
    (h2 : e2.Perm (buildMap dir listing)) :
    scanVoiceNotesEnum dir now1 listing e1
      = scanVoiceNotesEnum dir now2 listing e2 :=
  scanEnum_eq_of_perm dir now1 now2 listing e1 e2 h1 h2

/-- Witness for C5: two runs at different clock readings, one enumerating
the map in insertion order and one in reverse, agree. -/
theorem C5_witness :
    scanVoiceNotesEnum "d/" "10:00"
      [⟨"note_A", ".txt", true, "hello", "08:00"⟩,
       ⟨"note_B", ".wav", true, "", "08:30"⟩]
      (buildMap "d/" [⟨"note_A", ".txt", true, "hello", "08:00"⟩,
        ⟨"note_B", ".wav", true, "", "08:30"⟩])
    = scanVoiceNotesEnum "d/" "11:11"
      [⟨"note_A", ".txt", true, "hello", "08:00"⟩,
       ⟨"note_B", ".wav", true, "", "08:30"⟩]
      ((buildMap "d/" [⟨"note_A", ".txt", true, "hello", "08:00"⟩,
        ⟨"note_B", ".wav", true, "", "08:30"⟩]).reverse) :=
  C5_reconcile_idempotent "d/" "10:00" "11:11" _ _ _
    (List.Perm.refl _) (List.reverse_perm _)

end HTTPHacks
